import Mathlib

/-!
# Verification of the cryptocanon reading app's text-processing core

Shallow embedding of the string-processing logic of the Bitcoin-whitepaper
mini app:

* quote-selection normalisation and length validation (`handleSelection` in
  `HomeTab.tsx`),
* the quote-share handler's state transitions (`handleQuoteShare`),
* the reference-marker annotator (`renderContentWithReferences`) together
  with its cross-call mutable occurrence state (`refOccurrencesRef`),
* the two `sanitizeQuote` helpers of the share page and the OpenGraph image
  route,
* the font-size preference initialisation and update.

Strings are modelled at the Unicode code-point level (`String.data`); for
the texts involved (BMP text) JavaScript's UTF-16 `length`/`slice` agree
with the code-point view.
-/

namespace CryptoCanon

/-! ## JavaScript string primitives used by the code -/

/-- The character class of JavaScript's regex `\s` (and of `String.prototype.trim`):
space, tab, line terminators, and the Unicode space separators including
NBSP, the en/em spaces, and the BOM. -/
def isJsWhitespace (c : Char) : Bool :=
  c = ' ' || c = '\t' || c = '\n' || c.toNat = 11 || c.toNat = 12 || c = '\r' ||
  c.toNat = 0xa0 || c.toNat = 0x1680 ||
  (0x2000 ≤ c.toNat && c.toNat ≤ 0x200a) ||
  c.toNat = 0x2028 || c.toNat = 0x2029 || c.toNat = 0x202f ||
  c.toNat = 0x205f || c.toNat = 0x3000 || c.toNat = 0xfeff

/-- One pass of `.replace(/\s+/g, " ")`: each maximal run of whitespace
becomes a single space.  The boolean records whether the previous character
was part of a whitespace run. -/
def collapseWsAux : Bool → List Char → List Char
  | _, [] => []
  | prevWs, c :: rest =>
    if isJsWhitespace c then
      if prevWs then collapseWsAux true rest
      else ' ' :: collapseWsAux true rest
    else c :: collapseWsAux false rest

def collapseWs (l : List Char) : List Char := collapseWsAux false l

/-- Models `String.prototype.trim`: strip leading and trailing `\s` characters. -/
def jsTrim (l : List Char) : List Char :=
  ((l.dropWhile isJsWhitespace).reverse.dropWhile isJsWhitespace).reverse

/-- Models `s.replace(/\s+/g, " ").trim()`, the normalisation both `sanitizeQuote`
helpers and the selection handler apply. -/
def normalizeWs (s : String) : String :=
  ⟨jsTrim (collapseWs s.data)⟩

/-- Models `s.slice(0, n)` (on code points). -/
def jsSlice (s : String) (n : Nat) : String :=
  ⟨s.data.take n⟩

/-! ## Quote selection (`handleSelection`, HomeTab.tsx 787-835) -/

def MIN_QUOTE_LENGTH : Nat := 16
def MAX_QUOTE_LENGTH : Nat := 280

/-- The state the selection handler publishes for a captured selection. -/
structure QuoteCapture where
  text : String
  warning : Option String
deriving DecidableEq, Repr

/-- The warning for an over-long selection,
`` `Quote truncated to ${MAX_QUOTE_LENGTH} characters.` ``. -/
def truncationWarning : String := "Quote truncated to 280 characters."

/-- The warning for an under-length selection. -/
def minLengthWarning : String := "Try selecting a little more text for better context."

/-- The pure core of `handleSelection`: from the raw selection string to the
published capture.  `none` models the early `return` on a selection that
normalises to the empty string (nothing is captured). -/
def handleSelection (raw : String) : Option QuoteCapture :=
  let text := normalizeWs raw
  if text = "" then none
  else if text.length > MAX_QUOTE_LENGTH then
    some ⟨jsSlice text MAX_QUOTE_LENGTH, some truncationWarning⟩
  else if text.length < MIN_QUOTE_LENGTH then
    some ⟨text, some minLengthWarning⟩
  else
    some ⟨text, none⟩

/-! ## Quote share (`handleQuoteShare`, HomeTab.tsx 897-923) -/

/-- The component state the quote-share flow touches: `quoteText`,
`quoteWarning`, `showQuoteMenu`, `quoteMenuPosition`.  Menu coordinates are
opaque here (the handler never constructs one; it only clears them). -/
structure QuoteState where
  quoteText : String
  quoteWarning : Option String
  showQuoteMenu : Bool
  quoteMenuPosition : Option (Int × Int)
deriving DecidableEq, Repr

/-- Embeds `resetQuoteSelection` (HomeTab.tsx 644-653): hide the menu, clear text,
warning and position. -/
def resetQuoteSelection (_s : QuoteState) : QuoteState :=
  ⟨"", none, false, none⟩

/-- Outcome of the host's `actions.openUrl` call. -/
inductive OpenUrlOutcome
  | success
  | failure
deriving DecidableEq, Repr

def unsupportedClientWarning : String := "Opening links is not supported in this client."

def openFailedWarning : String := "Something went wrong opening Farcaster. Please try again."

/-- Embeds `handleQuoteShare` as a state transition.  `hasOpenUrl` is whether the
host client exposes `actions.openUrl`; `outcome` is how that call resolves
when it is made. -/
def handleQuoteShare (hasOpenUrl : Bool) (outcome : OpenUrlOutcome)
    (s : QuoteState) : QuoteState :=
  if s.quoteText = "" then s
  else if !hasOpenUrl then { s with quoteWarning := some unsupportedClientWarning }
  else
    match outcome with
    | .success => resetQuoteSelection s
    | .failure => { s with quoteWarning := some openFailedWarning }

/-! ## `sanitizeQuote` of the share page (src/unnamed/part_000, 10-32)

`decodeURIComponent` is a JavaScript built-in; it is modelled by an
arbitrary partial decoder `dec : String → Option String` (`none` = the
built-in throws `URIError`), over which every theorem is universally
quantified.  The code's `try { decoded = decodeURIComponent(value) } catch
{ decoded = value }` becomes `(dec value).getD value`. -/

/-- The page's query parameter: absent, a single string, or an array of
strings (`Record<string, string | string[] | undefined>`). -/
abbrev QueryParam := Option (String ⊕ List String)

/-- Embeds `sanitizeQuote` of `app/share/quote/page.tsx`.  For an empty array,
`raw[0]` is `undefined` and `decodeURIComponent(undefined)` coerces its
argument to the string `"undefined"`; the model applies the same coercion
before the decoder. -/
def sanitizeQuote_page (dec : String → Option String) (raw : QueryParam) : String :=
  match raw with
  | none => ""
  | some r =>
    -- `if (!raw) return ""`: the empty string is falsy, arrays never are.
    if (match r with | .inl s => s == "" | .inr _ => false) then ""
    else
      let value : String :=
        match r with
        | .inl s => s
        | .inr [] => "undefined"
        | .inr (v :: _) => v
      let decoded := (dec value).getD value
      let normalized := normalizeWs decoded
      if normalized = "" then ""
      else if normalized.length > MAX_QUOTE_LENGTH then jsSlice normalized MAX_QUOTE_LENGTH
      else normalized

/-! ## `sanitizeQuote` of the OpenGraph image route (src/unnamed/part_001, 53-73) -/

/-- Embeds `sanitizeQuote` of `app/api/opengraph-quote/route.tsx`; its input is
`searchParams.get("text")`, a `string | null`. -/
def sanitizeQuote_og (dec : String → Option String) (value : Option String) : String :=
  match value with
  | none => ""
  | some v =>
    if v = "" then ""
    else
      let decoded := (dec v).getD v
      let normalized := normalizeWs decoded
      if normalized = "" then ""
      else if normalized.length > MAX_QUOTE_LENGTH then jsSlice normalized MAX_QUOTE_LENGTH
      else normalized

/-! ## Font-size preference (HomeTab.tsx 660-679) -/

/-- The three legal font sizes of the `"small" | "medium" | "large"` union. -/
def validFontSize (s : String) : Bool :=
  s = "small" || s = "medium" || s = "large"

/-- The mount effect: `const savedSize = localStorage.getItem("fontSize") as
... | null; if (savedSize) setFontSize(savedSize)`.  The cast performs no
runtime check, so any truthy stored string is adopted as-is; `none` models a
missing key and the empty string is falsy. -/
def initFontSize (stored : Option String) : String :=
  match stored with
  | none => "medium"
  | some s => if s = "" then "medium" else s

/-- Embeds `handleFontSizeChange`: it sets the state to its argument (and persists it);
its TypeScript parameter type restricts callers to the three literals. -/
def handleFontSizeChange (size : String) : String :=
  size

/-! ## Reference annotator (`renderContentWithReferences`, HomeTab.tsx 925-979)

The regex `/\[([0-9]+(?:-[0-9]+)?)\]/g` is run with `exec` in a loop: it
finds successive leftmost matches.  Because `[0-9]+` is a maximal digit run
whenever the following character must be a non-digit (`-` or `]`),
backtracking inside the digit groups can never succeed, so a match at a
position exists exactly when the text there reads `[` digits `]` or
`[` digits `-` digits `]`.  `matchRefAt` decides this at the head of a
character list and returns the capture group together with the suffix after
the match. -/

def matchRefAt : List Char → Option (String × List Char)
  | '[' :: rest =>
    let d1 := rest.takeWhile Char.isDigit
    let r1 := rest.dropWhile Char.isDigit
    if d1.isEmpty then none
    else
      match r1 with
      | ']' :: r2 => some (⟨d1⟩, r2)
      | '-' :: r1' =>
        let d2 := r1'.takeWhile Char.isDigit
        let r2 := r1'.dropWhile Char.isDigit
        if d2.isEmpty then none
        else
          match r2 with
          | ']' :: r3 => some (⟨d1 ++ '-' :: d2⟩, r3)
          | _ => none
      | _ => none
  | _ => none

/-- A successful match consumed exactly `[label]`. -/
theorem matchRefAt_eq_some {l : List Char} {label : String} {after : List Char}
    (h : matchRefAt l = some (label, after)) :
    l = '[' :: (label.data ++ ']' :: after) := by
  match l with
  | [] => simp [matchRefAt] at h
  | c :: rest =>
    by_cases hc : c = '['
    · subst hc
      simp only [matchRefAt] at h
      split at h
      · exact absurd h (by simp)
      · rename_i hne
        split at h
        · rename_i r2 hr1
          injection h with h1
          injection h1 with hlab hafter
          subst hlab; subst hafter
          have hsplit := List.takeWhile_append_dropWhile (p := Char.isDigit) (l := rest)
          simp only [List.cons.injEq, true_and]
          conv_lhs => rw [← hsplit]
          rw [hr1]
        · rename_i r1' hr1
          split at h
          · exact absurd h (by simp)
          · split at h
            · rename_i r3 hr2
              injection h with h1
              injection h1 with hlab hafter
              subst hlab; subst hafter
              have h1 := List.takeWhile_append_dropWhile (p := Char.isDigit) (l := rest)
              have h2 := List.takeWhile_append_dropWhile (p := Char.isDigit) (l := r1')
              simp only [List.cons.injEq, true_and, List.append_assoc, List.cons_append]
              conv_lhs => rw [← h1]
              rw [hr1]
              conv_lhs => rw [← h2]
              rw [hr2]
            · exact absurd h (by simp)
        · exact absurd h (by simp)
    · rw [show matchRefAt (c :: rest) = none by
        unfold matchRefAt
        split
        · rename_i heq
          injection heq with hc' _
          exact absurd hc' hc
        · rfl] at h
      exact absurd h (by simp)

theorem matchRefAt_shorter {l : List Char} {label : String} {after : List Char}
    (h : matchRefAt l = some (label, after)) : after.length < l.length := by
  rw [matchRefAt_eq_some h]
  simp only [List.length_cons, List.length_append]
  omega

/-- Models `Number(digits)` for a decimal digit string (exact for all the digit
sequences this content contains; JavaScript's `Number` rounds only beyond
2^53). -/
def natOfDigits (l : List Char) : Nat :=
  l.foldl (fun acc c => acc * 10 + (c.toNat - '0'.toNat)) 0

/-- Models `label.includes("-") ? Number(label.split("-")[0]) : Number(label)`. -/
def labelTarget (label : String) : Nat :=
  if label.data.contains '-' then natOfDigits (label.data.takeWhile (· ≠ '-'))
  else natOfDigits label.data

/-- The cross-call mutable state held in `refOccurrencesRef` (occurrence
counts per reference number) and `firstRefOccurrenceRef` (id of the first
occurrence). -/
structure RefState where
  occurrences : Nat → Nat
  firstOccurrence : Nat → Option String

/-- The state at mount: `{}` in both refs. -/
def initialRefState : RefState :=
  ⟨fun _ => 0, fun _ => none⟩

/-- The nodes `renderContentWithReferences` emits: plain-text spans and
reference anchors `<a id href>[label]</a>`. -/
inductive RNode
  | span (text : String)
  | anchor (id : String) (href : String) (label : String)
deriving DecidableEq, Repr

/-- The text a node displays: a span shows its text, an anchor shows
`[label]`. -/
def RNode.displayText : RNode → String
  | .span t => t
  | .anchor _ _ label => "[" ++ label ++ "]"

/-- The pending literal characters since the last emitted node, flushed as
one span (the code only pushes a span when the slice is non-empty). -/
def flushPending (pending : List Char) : List RNode :=
  if pending.isEmpty then [] else [RNode.span ⟨pending⟩]

/-- Builds `` `ref-link-${anchorTarget}-${occurrenceCount}` ``. -/
def mkRefId (target count : Nat) : String :=
  "ref-link-" ++ toString target ++ "-" ++ toString count

/-- Record one more occurrence of `target`:
`refOccurrencesRef.current[anchorTarget] = occurrenceCount + 1` and
`if (!firstRefOccurrenceRef.current[anchorTarget]) ... = uniqueId`. -/
def bumpRef (st : RefState) (target : Nat) (uniqueId : String) : RefState :=
  { occurrences := fun n =>
      if n = target then st.occurrences target + 1 else st.occurrences n,
    firstOccurrence := fun n =>
      if n = target then some ((st.firstOccurrence target).getD uniqueId)
      else st.firstOccurrence n }

/-- The body of the `while ((match = referencePattern.exec(text)) !== null)`
loop: scan left to right; at a match emit the pending span (if any) and the
anchor, update the occurrence state, and continue after the match. -/
def renderScan (st : RefState) (pending : List Char) (l : List Char) :
    RefState × List RNode :=
  match l with
  | [] => (st, flushPending pending)
  | c :: rest =>
    match h : matchRefAt (c :: rest) with
    | some (label, after) =>
      let target := labelTarget label
      let uniqueId := mkRefId target (st.occurrences target)
      let res := renderScan (bumpRef st target uniqueId) [] after
      (res.1, flushPending pending ++
        RNode.anchor uniqueId ("#reference-" ++ toString target) label :: res.2)
    | none => renderScan st (pending ++ [c]) rest
termination_by l.length
decreasing_by
  · exact matchRefAt_shorter h
  · simp

/-- Unfolding: the empty text flushes the pending span. -/
theorem renderScan_nil (st : RefState) (pending : List Char) :
    renderScan st pending [] = (st, flushPending pending) := by
  rw [renderScan]

/-- Unfolding: at a match, emit pending span and anchor and continue after. -/
theorem renderScan_cons_some {c : Char} {rest : List Char} {label : String}
    {after : List Char} (st : RefState) (pending : List Char)
    (h : matchRefAt (c :: rest) = some (label, after)) :
    renderScan st pending (c :: rest) =
      ((renderScan
          (bumpRef st (labelTarget label)
            (mkRefId (labelTarget label) (st.occurrences (labelTarget label))))
          [] after).1,
        flushPending pending ++
          RNode.anchor
            (mkRefId (labelTarget label) (st.occurrences (labelTarget label)))
            ("#reference-" ++ toString (labelTarget label)) label ::
          (renderScan
            (bumpRef st (labelTarget label)
              (mkRefId (labelTarget label) (st.occurrences (labelTarget label))))
            [] after).2) := by
  rw [renderScan]
  split
  · rename_i label' after' heq
    rw [h] at heq
    injection heq with heq'
    injection heq' with h1 h2
    subst h1; subst h2
    rfl
  · rename_i heq
    rw [h] at heq
    exact absurd heq (by simp)

/-- Unfolding: with no match at this position, the character joins the
pending literal text. -/
theorem renderScan_cons_none {c : Char} {rest : List Char}
    (st : RefState) (pending : List Char) (h : matchRefAt (c :: rest) = none) :
    renderScan st pending (c :: rest) = renderScan st (pending ++ [c]) rest := by
  rw [renderScan]
  split
  · rename_i label' after' heq
    rw [h] at heq
    exact absurd heq (by simp)
  · rfl

/-- Embeds `renderContentWithReferences`, with the mutable ref state made explicit:
it returns the updated state along with the node list. -/
def renderContentWithReferences (st : RefState) (text : String) :
    RefState × List RNode :=
  renderScan st [] text.data

/-- Whether the text contains a substring matching
`\[[0-9]+(-[0-9]+)?\]` (a match at some position of the scan). -/
def hasRefMarker : List Char → Bool
  | [] => false
  | c :: rest => (matchRefAt (c :: rest)).isSome || hasRefMarker rest

/-! ## Structural lemmas about the scanner -/

theorem takeWhile_append_not {p : Char → Bool} {l : List Char} (hl : ∀ x ∈ l, p x)
    {c : Char} (hc : ¬ p c) (r : List Char) :
    (l ++ c :: r).takeWhile p = l := by
  induction l with
  | nil => simp [List.takeWhile_cons, hc]
  | cons a as ih =>
    have ha : p a := hl a (by simp)
    simp only [List.cons_append, List.takeWhile_cons_of_pos ha]
    rw [ih fun x hx => hl x (by simp [hx])]

theorem dropWhile_append_not {p : Char → Bool} {l : List Char} (hl : ∀ x ∈ l, p x)
    {c : Char} (hc : ¬ p c) (r : List Char) :
    (l ++ c :: r).dropWhile p = c :: r := by
  induction l with
  | nil => simp [List.dropWhile_cons, hc]
  | cons a as ih =>
    have ha : p a := hl a (by simp)
    simp only [List.cons_append, List.dropWhile_cons_of_pos ha]
    exact ih fun x hx => hl x (by simp [hx])

theorem digit_ne_hyphen {c : Char} (h : c.isDigit) : c ≠ '-' := by
  intro hc
  subst hc
  simp [Char.isDigit] at h

theorem digits_not_contains_hyphen {l : List Char} (h : ∀ x ∈ l, x.isDigit) :
    l.contains '-' = false := by
  have hnm : '-' ∉ l := by
    intro hm
    have := h '-' hm
    simp [Char.isDigit] at this
  induction l with
  | nil => rfl
  | cons a as ih =>
    have ha : ¬ ('-' == a) = true := by
      simp only [beq_iff_eq]
      intro he
      exact hnm (he ▸ List.mem_cons_self a as)
    have has : '-' ∉ as := fun hm => hnm (List.mem_cons_of_mem _ hm)
    simp only [List.contains_cons, ha, Bool.false_or]
    exact ih (fun x hx => h x (List.mem_cons_of_mem _ hx)) has

/-- A matched simple marker: at `[` digits `]` the match captures the digits. -/
theorem matchRefAt_simple {n : List Char} (hne : n ≠ []) (hd : ∀ x ∈ n, x.isDigit)
    (r : List Char) :
    matchRefAt ('[' :: (n ++ ']' :: r)) = some (⟨n⟩, r) := by
  have hbr : ¬ (']' : Char).isDigit = true := by decide
  simp only [matchRefAt]
  rw [takeWhile_append_not hd hbr, dropWhile_append_not hd hbr]
  simp [List.isEmpty_iff, hne]

/-- A matched range marker: at `[` digits `-` digits `]` the capture is the
full `m-k` group. -/
theorem matchRefAt_range {m k : List Char} (hm : m ≠ []) (hk : k ≠ [])
    (hdm : ∀ x ∈ m, x.isDigit) (hdk : ∀ x ∈ k, x.isDigit) (r : List Char) :
    matchRefAt ('[' :: (m ++ '-' :: (k ++ ']' :: r))) = some (⟨m ++ '-' :: k⟩, r) := by
  have hbr : ¬ (']' : Char).isDigit = true := by decide
  have hhy : ¬ ('-' : Char).isDigit = true := by decide
  simp only [matchRefAt]
  rw [takeWhile_append_not hdm hhy, dropWhile_append_not hdm hhy]
  simp only [List.isEmpty_iff, hm, if_neg]
  rw [takeWhile_append_not hdk hbr, dropWhile_append_not hdk hbr]
  simp [List.isEmpty_iff, hk, hm]

/-- Shape of a capture group: all digits, or digits `-` digits. -/
theorem matchRefAt_label_shape {l : List Char} {label : String} {after : List Char}
    (h : matchRefAt l = some (label, after)) :
    (label.data ≠ [] ∧ ∀ x ∈ label.data, x.isDigit) ∨
    (∃ d1 d2, label.data = d1 ++ '-' :: d2 ∧ d1 ≠ [] ∧ d2 ≠ [] ∧
      (∀ x ∈ d1, x.isDigit) ∧ ∀ x ∈ d2, x.isDigit) := by
  match l with
  | [] => simp [matchRefAt] at h
  | c :: rest =>
    by_cases hc : c = '['
    · subst hc
      simp only [matchRefAt] at h
      split at h
      · exact absurd h (by simp)
      · rename_i hne
        split at h
        · rename_i r2 hr1
          injection h with h1
          injection h1 with hlab _
          subst hlab
          left
          refine ⟨by simpa [List.isEmpty_iff] using hne, fun x hx => ?_⟩
          exact List.mem_takeWhile_imp hx
        · rename_i r1' hr1
          split at h
          · exact absurd h (by simp)
          · rename_i hne2
            split at h
            · rename_i r3 hr2
              injection h with h1
              injection h1 with hlab _
              subst hlab
              right
              refine ⟨_, _, rfl, by simpa [List.isEmpty_iff] using hne,
                by simpa [List.isEmpty_iff] using hne2,
                fun x hx => List.mem_takeWhile_imp hx,
                fun x hx => List.mem_takeWhile_imp hx⟩
            · exact absurd h (by simp)
        · exact absurd h (by simp)
    · rw [show matchRefAt (c :: rest) = none by
        unfold matchRefAt
        split
        · rename_i heq
          injection heq with hc' _
          exact absurd hc' hc
        · rfl] at h
      exact absurd h (by simp)

/-- For an all-digit label the anchor target is the label's decimal value. -/
theorem labelTarget_digits {label : String} (h : ∀ x ∈ label.data, x.isDigit) :
    labelTarget label = natOfDigits label.data := by
  unfold labelTarget
  rw [digits_not_contains_hyphen h]
  simp

/-- For a range label `m-k` the anchor target is the decimal value of `m`. -/
theorem labelTarget_range {m k : List Char} (hdm : ∀ x ∈ m, x.isDigit) :
    labelTarget ⟨m ++ '-' :: k⟩ = natOfDigits m := by
  unfold labelTarget
  have hcon : (m ++ '-' :: k).contains '-' = true := by
    clear hdm
    induction m with
    | nil => simp [List.contains_cons]
    | cons a as ih =>
      simp only [List.cons_append, List.contains_cons, ih, Bool.or_true]
  have hne : ∀ x ∈ m, (fun x => decide (x ≠ '-')) x = true := by
    intro x hx
    simp [digit_ne_hyphen (hdm x hx)]
  have hhy : ¬ (fun x => decide (x ≠ '-')) '-' = true := by decide
  simp only [hcon, if_true]
  rw [takeWhile_append_not hne hhy]

/-- Anchors never come from the pending-text flush. -/
theorem not_anchor_mem_flushPending {p : List Char} {id href label : String}
    (h : RNode.anchor id href label ∈ flushPending p) : False := by
  unfold flushPending at h
  split at h <;> simp at h

/-- Soundness of emitted anchors: every anchor's href points at
`#reference-` followed by the label's target number, and the label has the
shape the regex admits. -/
theorem renderScan_anchor_sound (st : RefState) (pending l : List Char)
    {id href label : String} :
    RNode.anchor id href label ∈ (renderScan st pending l).2 →
    href = "#reference-" ++ toString (labelTarget label) ∧
    ((label.data ≠ [] ∧ ∀ x ∈ label.data, x.isDigit) ∨
     (∃ d1 d2, label.data = d1 ++ '-' :: d2 ∧ d1 ≠ [] ∧ d2 ≠ [] ∧
       (∀ x ∈ d1, x.isDigit) ∧ ∀ x ∈ d2, x.isDigit)) := by
  induction st, pending, l using renderScan.induct with
  | case1 st pending =>
    intro hmem
    rw [renderScan_nil] at hmem
    exact absurd hmem not_anchor_mem_flushPending
  | case2 st pending c rest label' after h tgt uid ih =>
    intro hmem
    rw [renderScan_cons_some st pending h] at hmem
    simp only [List.mem_append, List.mem_cons] at hmem
    rcases hmem with hpend | heq | htail
    · exact absurd hpend not_anchor_mem_flushPending
    · injection heq with h1 h2 h3
      subst h2; subst h3
      exact ⟨rfl, matchRefAt_label_shape h⟩
    · exact ih htail
  | case3 st pending c rest h ih =>
    intro hmem
    rw [renderScan_cons_none st pending h] at hmem
    exact ih hmem

/-- The concatenated displayed text of a node list. -/
def renderedText (ns : List RNode) : String :=
  String.join (ns.map RNode.displayText)

theorem string_join_data (l : List String) :
    (String.join l).data = (l.map String.data).flatten := by
  have aux : ∀ (l : List String) (acc : String),
      (l.foldl (fun r s => r ++ s) acc).data = acc.data ++ (l.map String.data).flatten := by
    intro l
    induction l with
    | nil => intro acc; simp
    | cons a as ih =>
      intro acc
      simp only [List.foldl_cons, ih, String.data_append, List.map_cons,
        List.flatten_cons, List.append_assoc]
  exact aux l ""

theorem flushPending_chars (p : List Char) :
    ((flushPending p).map fun n => (RNode.displayText n).data).flatten = p := by
  unfold flushPending
  split
  · rename_i hp
    simp only [List.map_nil, List.flatten_nil]
    exact (List.isEmpty_iff.mp hp).symm
  · simp [RNode.displayText]

/-- The scan loses no characters: the displayed text of the emitted nodes,
concatenated, is the pending prefix followed by the remaining input. -/
theorem renderScan_chars (st : RefState) (pending l : List Char) :
    (((renderScan st pending l).2).map fun n => (RNode.displayText n).data).flatten
      = pending ++ l := by
  induction st, pending, l using renderScan.induct with
  | case1 st pending =>
    rw [renderScan_nil]
    simp [flushPending_chars]
  | case2 st pending c rest label after h tgt uid ih =>
    rw [renderScan_cons_some st pending h]
    have hshape := matchRefAt_eq_some h
    simp only [List.map_append, List.map_cons, List.flatten_append, List.flatten_cons,
      flushPending_chars]
    rw [ih, hshape]
    simp only [RNode.displayText, String.data_append, List.nil_append]
    simp
  | case3 st pending c rest h ih =>
    rw [renderScan_cons_none st pending h]
    rw [ih]
    simp

/-- Erase the occurrence-dependent anchor id, keeping segmentation, href and
label. -/
def RNode.eraseId : RNode → RNode
  | .span t => .span t
  | .anchor _ href label => .anchor "" href label

/-- Up to anchor ids, the emitted nodes do not depend on the occurrence
state. -/
theorem renderScan_eraseId (st : RefState) (pending l : List Char) :
    ∀ st' : RefState,
      ((renderScan st pending l).2).map RNode.eraseId
        = ((renderScan st' pending l).2).map RNode.eraseId := by
  induction st, pending, l using renderScan.induct with
  | case1 st pending =>
    intro st'
    rw [renderScan_nil, renderScan_nil]
  | case2 st pending c rest label after h tgt uid ih =>
    intro st'
    rw [renderScan_cons_some st pending h, renderScan_cons_some st' pending h]
    simp only [List.map_append, List.map_cons, RNode.eraseId, List.append_cancel_left_eq,
      List.cons.injEq, true_and]
    exact ih _
  | case3 st pending c rest h ih =>
    intro st'
    rw [renderScan_cons_none st pending h, renderScan_cons_none st' pending h]
    exact ih st'

/-- With no marker anywhere in the input, the scan only accumulates literal
text and leaves the state untouched. -/
theorem renderScan_no_marker (st : RefState) (pending l : List Char) :
    hasRefMarker l = false →
      renderScan st pending l = (st, flushPending (pending ++ l)) := by
  induction st, pending, l using renderScan.induct with
  | case1 st pending =>
    intro _
    rw [renderScan_nil]
    simp
  | case2 st pending c rest label after h tgt uid ih =>
    intro hno
    rw [hasRefMarker] at hno
    simp [h] at hno
  | case3 st pending c rest h ih =>
    intro hno
    rw [hasRefMarker] at hno
    simp only [Bool.or_eq_false_iff] at hno
    rw [renderScan_cons_none st pending h, ih hno.2]
    simp

/-- A text that is exactly one simple marker `[n]` renders as exactly one
anchor for the decimal value of `n`, counted against the current occurrence
state. -/
theorem renderScan_single_simple (st : RefState) {n : List Char}
    (hne : n ≠ []) (hd : ∀ x ∈ n, x.isDigit) :
    renderScan st [] ('[' :: (n ++ [']'])) =
      (bumpRef st (natOfDigits n)
        (mkRefId (natOfDigits n) (st.occurrences (natOfDigits n))),
       [RNode.anchor
          (mkRefId (natOfDigits n) (st.occurrences (natOfDigits n)))
          ("#reference-" ++ toString (natOfDigits n)) ⟨n⟩]) := by
  have hm : matchRefAt ('[' :: (n ++ ']' :: [])) = some (⟨n⟩, []) :=
    matchRefAt_simple hne hd []
  have htgt : labelTarget ⟨n⟩ = natOfDigits n := labelTarget_digits hd
  rw [renderScan_cons_some st [] hm, renderScan_nil]
  rw [htgt]
  rfl

/-- A text that is exactly one range marker `[m-k]` renders as exactly one
anchor whose label is the full `m-k` but whose target is the decimal value
of `m` alone. -/
theorem renderScan_single_range (st : RefState) {m k : List Char}
    (hm : m ≠ []) (hk : k ≠ [])
    (hdm : ∀ x ∈ m, x.isDigit) (hdk : ∀ x ∈ k, x.isDigit) :
    renderScan st [] ('[' :: (m ++ '-' :: (k ++ [']']))) =
      (bumpRef st (natOfDigits m)
        (mkRefId (natOfDigits m) (st.occurrences (natOfDigits m))),
       [RNode.anchor
          (mkRefId (natOfDigits m) (st.occurrences (natOfDigits m)))
          ("#reference-" ++ toString (natOfDigits m)) ⟨m ++ '-' :: k⟩]) := by
  have hmt : matchRefAt ('[' :: (m ++ '-' :: (k ++ ']' :: []))) =
      some (⟨m ++ '-' :: k⟩, []) :=
    matchRefAt_range hm hk hdm hdk []
  have htgt : labelTarget ⟨m ++ '-' :: k⟩ = natOfDigits m := labelTarget_range hdm
  rw [renderScan_cons_some st [] hmt, renderScan_nil]
  rw [htgt]
  rfl

theorem string_length_data (s : String) : s.length = s.data.length := rfl

theorem jsSlice_length (s : String) (n : Nat) : (jsSlice s n).length = min n s.length := by
  rw [jsSlice, string_length_data, string_length_data]
  exact List.length_take n s.data

/-! ## The claims -/

/-- C1: every selection captured by the quote-share selection handler is the
whitespace-normalised selection text; if the normalised text exceeds 280
characters it is truncated to exactly its first 280 characters with the
truncation warning, if it is shorter than 16 characters the minimum-length
warning is set and the text kept, and otherwise no warning is set and the
text is kept unchanged. -/
theorem C1_selection_validation (raw : String) (cap : QuoteCapture)
    (h : handleSelection raw = some cap) :
    ((normalizeWs raw).length > MAX_QUOTE_LENGTH →
      cap.text = jsSlice (normalizeWs raw) MAX_QUOTE_LENGTH ∧
      cap.text.length = MAX_QUOTE_LENGTH ∧
      cap.warning = some truncationWarning) ∧
    ((normalizeWs raw).length < MIN_QUOTE_LENGTH →
      cap.text = normalizeWs raw ∧ cap.warning = some minLengthWarning) ∧
    (MIN_QUOTE_LENGTH ≤ (normalizeWs raw).length ∧
        (normalizeWs raw).length ≤ MAX_QUOTE_LENGTH →
      cap.text = normalizeWs raw ∧ cap.warning = none) := by
  have hMM : MIN_QUOTE_LENGTH ≤ MAX_QUOTE_LENGTH := by decide
  unfold handleSelection at h
  by_cases h0 : normalizeWs raw = ""
  · rw [if_pos h0] at h
    exact absurd h (by simp)
  · rw [if_neg h0] at h
    by_cases h1 : (normalizeWs raw).length > MAX_QUOTE_LENGTH
    · rw [if_pos h1] at h
      injection h with h'
      subst h'
      refine ⟨fun _ => ⟨rfl, ?_, rfl⟩, fun h2 => absurd h1 (by omega),
        fun h2 => absurd h1 (by omega)⟩
      show (jsSlice (normalizeWs raw) MAX_QUOTE_LENGTH).length = MAX_QUOTE_LENGTH
      rw [jsSlice_length]
      omega
    · rw [if_neg h1] at h
      by_cases h2 : (normalizeWs raw).length < MIN_QUOTE_LENGTH
      · rw [if_pos h2] at h
        injection h with h'
        subst h'
        exact ⟨fun hgt => absurd hgt h1, fun _ => ⟨rfl, rfl⟩,
          fun hle => absurd h2 (by omega)⟩
      · rw [if_neg h2] at h
        injection h with h'
        subst h'
        exact ⟨fun hgt => absurd hgt h1, fun hlt => absurd hlt h2,
          fun _ => ⟨rfl, rfl⟩⟩

/-- Witness for C1: a mid-length selection is captured unchanged with no
warning. -/
theorem C1_selection_validation_witness :
    handleSelection " Chancellor   on brink of second bailout " =
      some ⟨"Chancellor on brink of second bailout", none⟩ ∧
    (⟨"Chancellor on brink of second bailout", none⟩ : QuoteCapture).text =
        normalizeWs " Chancellor   on brink of second bailout " ∧
      (⟨"Chancellor on brink of second bailout", none⟩ : QuoteCapture).warning = none :=
  ⟨by decide,
    (C1_selection_validation " Chancellor   on brink of second bailout "
      ⟨"Chancellor on brink of second bailout", none⟩ (by decide)).2.2 (by decide)⟩

/-- C4: the share page's `sanitizeQuote` is total for every query-parameter
shape and decoder behaviour (a failing decode falls back to the raw value);
its result never exceeds 280 characters, and it is the empty string when the
parameter is absent or when the (decoded) value normalises to only
whitespace. -/
theorem C4_sanitizeQuote_safe (dec : String → Option String) (raw : QueryParam) :
    (sanitizeQuote_page dec raw).length ≤ MAX_QUOTE_LENGTH ∧
    (raw = none → sanitizeQuote_page dec raw = "") ∧
    (∀ s, raw = some (Sum.inl s) → normalizeWs ((dec s).getD s) = "" →
      sanitizeQuote_page dec raw = "") := by
  have hcore : ∀ norm : String,
      (if norm = "" then ""
       else if norm.length > MAX_QUOTE_LENGTH then jsSlice norm MAX_QUOTE_LENGTH
       else norm).length ≤ MAX_QUOTE_LENGTH := by
    intro norm
    split
    · simp [string_length_data]
    · split
      · rw [jsSlice_length]; omega
      · omega
  refine ⟨?_, ?_, ?_⟩
  · cases raw with
    | none => simp [sanitizeQuote_page, string_length_data]
    | some r =>
      simp only [sanitizeQuote_page]
      split
      · simp [string_length_data]
      · exact hcore _
  · intro h
    subst h
    rfl
  · intro s hs hnorm
    subst hs
    simp [sanitizeQuote_page, hnorm]
/-- Witness for C4: an all-whitespace parameter (under a decoder that always
fails, exercising the fallback) sanitises to the empty string. -/
theorem C4_sanitizeQuote_safe_witness :
    ((some (Sum.inl "   ") : QueryParam) = some (Sum.inl "   ") ∧
      normalizeWs (((fun _ => none : String → Option String) "   ").getD "   ") = "") ∧
    sanitizeQuote_page (fun _ => none) (some (Sum.inl "   ")) = "" :=
  ⟨⟨rfl, by decide⟩,
    (C4_sanitizeQuote_safe (fun _ => none) (some (Sum.inl "   "))).2.2 "   " rfl (by decide)⟩

/-- C7: when the quote-share handler runs with a non-empty quote, a missing
`openUrl` capability or a failing `openUrl` call only sets the corresponding
user-visible warning, leaving quote text, menu visibility and menu position
unchanged; the quote selection is reset exactly when `openUrl` succeeds. -/
theorem C7_quote_share_failure (s : QuoteState) (hasOpenUrl : Bool)
    (outcome : OpenUrlOutcome) (hq : s.quoteText ≠ "") :
    (hasOpenUrl = false →
      handleQuoteShare hasOpenUrl outcome s =
        { s with quoteWarning := some unsupportedClientWarning }) ∧
    (hasOpenUrl = true → outcome = .failure →
      handleQuoteShare hasOpenUrl outcome s =
        { s with quoteWarning := some openFailedWarning }) ∧
    (hasOpenUrl = true → outcome = .success →
      handleQuoteShare hasOpenUrl outcome s = resetQuoteSelection s) := by
  refine ⟨?_, ?_, ?_⟩
  · rintro rfl
    simp [handleQuoteShare, hq]
  · rintro rfl rfl
    simp [handleQuoteShare, hq]
  · rintro rfl rfl
    simp [handleQuoteShare, hq]

/-- Witness for C7: in a client without `openUrl`, sharing a non-empty quote
only sets the unsupported-client warning. -/
theorem C7_quote_share_failure_witness :
    (⟨"Some quote", none, true, none⟩ : QuoteState).quoteText ≠ "" ∧
    handleQuoteShare false .success ⟨"Some quote", none, true, none⟩ =
      ⟨"Some quote", some unsupportedClientWarning, true, none⟩ :=
  ⟨by decide,
    (C7_quote_share_failure ⟨"Some quote", none, true, none⟩ false .success
      (by decide)).1 rfl⟩

/-- C8: the share page's `sanitizeQuote` and the OpenGraph route's
`sanitizeQuote` agree on every single-string input, for every decoder. -/
theorem C8_sanitize_equivalence (dec : String → Option String) (s : String) :
    sanitizeQuote_page dec (some (Sum.inl s)) = sanitizeQuote_og dec (some s) := by
  simp only [sanitizeQuote_page, sanitizeQuote_og]
  by_cases h : s = "" <;> simp [h]

/-- Counterexample for C10: the persisted value `"huge"` is adopted by the
initialisation effect without validation, so the font-size state is not a
valid enum value for every possible storage content. -/
theorem C10_counterexample :
    initFontSize (some "huge") = "huge" ∧
      validFontSize (initFontSize (some "huge")) = false := by
  constructor <;> rfl

/-- C10 (amended): the font-size state is a valid enum value after
initialisation provided the persisted `fontSize` key is absent, empty, or
one of the three valid sizes, and after every `handleFontSizeChange` whose
argument is valid (as its parameter type requires); arbitrary other storage
content is adopted unvalidated. -/
theorem C10_font_size_valid :
    (∀ stored : Option String,
      (∀ v, stored = some v → v = "" ∨ validFontSize v) →
      validFontSize (initFontSize stored)) ∧
    (∀ size : String, validFontSize size →
      validFontSize (handleFontSizeChange size)) := by
  constructor
  · intro stored h
    cases stored with
    | none => rfl
    | some v =>
      by_cases hv : v = ""
      · subst hv; rfl
      · rcases h v rfl with h' | h'
        · exact absurd h' hv
        · simpa [initFontSize, hv] using h'
  · intro size h
    exact h

/-- Witness for C10 (amended): a persisted `"large"` initialises to a valid
font size. -/
theorem C10_font_size_valid_witness :
    (∀ v, (some "large" : Option String) = some v → v = "" ∨ validFontSize v) ∧
    validFontSize (initFontSize (some "large")) :=
  ⟨fun v hv => Or.inr (by injection hv with h'; subst h'; rfl),
    C10_font_size_valid.1 (some "large")
      (fun v hv => Or.inr (by injection hv with h'; subst h'; rfl))⟩

/-- Counterexample for C2: the marker `[007]` (n = `007`, a digit sequence)
renders with href `#reference-7` — `Number("007")` drops the leading zeros —
not `#reference-007` as the claim's `#reference-n` requires. -/
theorem C2_counterexample :
    (renderContentWithReferences initialRefState "[007]").2 =
      [RNode.anchor "ref-link-7-0" "#reference-7" "007"] ∧
    "#reference-7" ≠ "#reference-007" := by
  constructor
  · rw [renderContentWithReferences,
      show ("[007]" : String).data = ['[', '0', '0', '7', ']'] from rfl,
      renderScan_cons_some _ _
        (show matchRefAt ['[', '0', '0', '7', ']'] = some ("007", []) by decide),
      renderScan_nil]
    decide
  · decide

/-- C2 (amended): every emitted citation anchor displays `[n]` for its
captured label `n` and links to `#reference-m` where `m` is the decimal
value of the label's leading digit sequence (leading zeros removed); a text
consisting of a single digit marker `[n]` emits exactly that anchor, and in
particular `[12]` renders as a link to `#reference-12`. -/
theorem C2_marker_anchor :
    (∀ (st : RefState) (text : String) (id href label : String),
      RNode.anchor id href label ∈ (renderContentWithReferences st text).2 →
        RNode.displayText (RNode.anchor id href label) = "[" ++ label ++ "]" ∧
        href = "#reference-" ++ toString (labelTarget label) ∧
        ((∀ x ∈ label.data, x.isDigit) →
          href = "#reference-" ++ toString (natOfDigits label.data))) ∧
    (∀ (st : RefState) (n : List Char), n ≠ [] → (∀ x ∈ n, x.isDigit) →
      (renderContentWithReferences st ⟨'[' :: (n ++ [']'])⟩).2 =
        [RNode.anchor (mkRefId (natOfDigits n) (st.occurrences (natOfDigits n)))
          ("#reference-" ++ toString (natOfDigits n)) ⟨n⟩]) ∧
    (renderContentWithReferences initialRefState "[12]").2 =
      [RNode.anchor "ref-link-12-0" "#reference-12" "12"] := by
  refine ⟨?_, ?_, ?_⟩
  · intro st text id href label hmem
    have hs := renderScan_anchor_sound st [] text.data hmem
    refine ⟨rfl, hs.1, fun hd => ?_⟩
    rw [hs.1, labelTarget_digits hd]
  · intro st n hne hd
    have := renderScan_single_simple st hne hd
    rw [renderContentWithReferences, show (⟨'[' :: (n ++ [']'])⟩ : String).data
      = '[' :: (n ++ [']']) from rfl, this]
  · rw [renderContentWithReferences,
      show ("[12]" : String).data = ['[', '1', '2', ']'] from rfl,
      renderScan_cons_some _ _
        (show matchRefAt ['[', '1', '2', ']'] = some ("12", []) by decide),
      renderScan_nil]
    decide

/-- Witness for C2 (amended): the single marker `[12]` emits exactly one
anchor targeting the decimal value 12. -/
theorem C2_marker_anchor_witness :
    ((['1', '2'] : List Char) ≠ [] ∧ ∀ x ∈ (['1', '2'] : List Char), x.isDigit) ∧
    (renderContentWithReferences initialRefState ⟨'[' :: (['1', '2'] ++ [']'])⟩).2 =
      [RNode.anchor
        (mkRefId (natOfDigits ['1', '2'])
          (initialRefState.occurrences (natOfDigits ['1', '2'])))
        ("#reference-" ++ toString (natOfDigits ['1', '2'])) ⟨['1', '2']⟩] :=
  ⟨⟨by decide, by decide⟩,
    C2_marker_anchor.2.1 initialRefState ['1', '2'] (by decide) (by decide)⟩

/-- Counterexample for C3: rendering the same text `[1]` twice produces
different anchor ids (`ref-link-1-0`, then `ref-link-1-1`), because the
occurrence counter in `refOccurrencesRef` persists across invocations — the
output is not independent of which texts were annotated before. -/
theorem C3_counterexample :
    (renderContentWithReferences
        (renderContentWithReferences initialRefState "[1]").1 "[1]").2 ≠
      (renderContentWithReferences initialRefState "[1]").2 := by
  have hm : matchRefAt ['[', '1', ']'] = some ("1", []) := by decide
  have h1 : renderContentWithReferences initialRefState "[1]" =
      (bumpRef initialRefState 1 "ref-link-1-0",
        [RNode.anchor "ref-link-1-0" "#reference-1" "1"]) := by
    rw [renderContentWithReferences,
      show ("[1]" : String).data = ['[', '1', ']'] from rfl,
      renderScan_cons_some _ _ hm, renderScan_nil]
    rfl
  rw [h1]
  rw [renderContentWithReferences,
    show ("[1]" : String).data = ['[', '1', ']'] from rfl,
    renderScan_cons_some _ _ hm, renderScan_nil]
  decide

/-- C3 (amended): up to the occurrence-derived anchor ids, the output of
`renderContentWithReferences` is deterministic per input — the segmentation
into spans and anchors, the span texts, the anchor labels and the hrefs are
identical for any two occurrence states. -/
theorem C3_deterministic_up_to_ids (st₁ st₂ : RefState) (text : String) :
    ((renderContentWithReferences st₁ text).2).map RNode.eraseId =
      ((renderContentWithReferences st₂ text).2).map RNode.eraseId :=
  renderScan_eraseId st₁ [] text.data st₂

/-- C5: a text containing no substring matching the reference pattern is
rendered unchanged — no anchors, just the original text (the empty node
list for the empty text) — and the occurrence state is untouched. -/
theorem C5_no_marker_identity (st : RefState) (text : String)
    (h : hasRefMarker text.data = false) :
    (renderContentWithReferences st text).1 = st ∧
    (renderContentWithReferences st text).2 =
      (if text = "" then [] else [RNode.span text]) := by
  rw [renderContentWithReferences, renderScan_no_marker st [] text.data h]
  refine ⟨rfl, ?_⟩
  cases text with
  | mk l =>
    simp only [List.nil_append, flushPending]
    rcases l with _ | ⟨c, cs⟩
    · simp
    · simp [String.ext_iff]

/-- Witness for C5: a plain sentence renders as a single span. -/
theorem C5_no_marker_identity_witness :
    hasRefMarker ("A purely peer-to-peer version of electronic cash" : String).data
        = false ∧
    ((renderContentWithReferences initialRefState
        "A purely peer-to-peer version of electronic cash").1 = initialRefState ∧
      (renderContentWithReferences initialRefState
        "A purely peer-to-peer version of electronic cash").2 =
        (if ("A purely peer-to-peer version of electronic cash" : String) = ""
          then [] else [RNode.span "A purely peer-to-peer version of electronic cash"])) :=
  ⟨by decide,
    C5_no_marker_identity initialRefState
      "A purely peer-to-peer version of electronic cash" (by decide)⟩

/-- C6: annotation preserves the text exactly — concatenating the displayed
text of all emitted segments (span texts and `[label]` anchor labels) gives
back the input, for every occurrence state. -/
theorem C6_text_preservation (st : RefState) (text : String) :
    renderedText (renderContentWithReferences st text).2 = text := by
  apply String.ext
  rw [renderedText, string_join_data, List.map_map]
  have := renderScan_chars st [] text.data
  rw [renderContentWithReferences]
  simpa using this

/-- Counterexample for C9: the range marker `[007-8]` (m = `007`) renders
with href `#reference-7`, not `#reference-007`: the href holds `Number(m)`,
which drops leading zeros of the first digit sequence. -/
theorem C9_counterexample :
    (renderContentWithReferences initialRefState "[007-8]").2 =
      [RNode.anchor "ref-link-7-0" "#reference-7" "007-8"] ∧
    "#reference-7" ≠ "#reference-007" := by
  constructor
  · rw [renderContentWithReferences,
      show ("[007-8]" : String).data = ['[', '0', '0', '7', '-', '8', ']'] from rfl,
      renderScan_cons_some _ _
        (show matchRefAt ['[', '0', '0', '7', '-', '8', ']'] =
          some ("007-8", []) by decide),
      renderScan_nil]
    decide
  · decide

/-- C9 (amended): every anchor whose label contains a hyphen comes from a
range marker `[m-k]`; it displays the full `[m-k]` while its href targets
only the decimal value of the first number `m` (leading zeros removed), and
a text consisting of a single range marker emits exactly one such anchor. -/
theorem C9_range_anchor :
    (∀ (st : RefState) (text : String) (id href label : String),
      RNode.anchor id href label ∈ (renderContentWithReferences st text).2 →
        label.data.contains '-' = true →
        ∃ m k, label.data = m ++ '-' :: k ∧ m ≠ [] ∧ k ≠ [] ∧
          (∀ x ∈ m, x.isDigit) ∧ (∀ x ∈ k, x.isDigit) ∧
          RNode.displayText (RNode.anchor id href label) = "[" ++ label ++ "]" ∧
          href = "#reference-" ++ toString (natOfDigits m)) ∧
    (∀ (st : RefState) (m k : List Char), m ≠ [] → k ≠ [] →
      (∀ x ∈ m, x.isDigit) → (∀ x ∈ k, x.isDigit) →
      (renderContentWithReferences st ⟨'[' :: (m ++ '-' :: (k ++ [']']))⟩).2 =
        [RNode.anchor (mkRefId (natOfDigits m) (st.occurrences (natOfDigits m)))
          ("#reference-" ++ toString (natOfDigits m)) ⟨m ++ '-' :: k⟩]) := by
  constructor
  · intro st text id href label hmem hhyph
    have hs := renderScan_anchor_sound st [] text.data hmem
    rcases hs.2 with ⟨_, hdig⟩ | ⟨d1, d2, hdecomp, hd1, hd2, hdig1, hdig2⟩
    · rw [digits_not_contains_hyphen hdig] at hhyph
      exact absurd hhyph (by simp)
    · refine ⟨d1, d2, hdecomp, hd1, hd2, hdig1, hdig2, rfl, ?_⟩
      have hlab : label = ⟨d1 ++ '-' :: d2⟩ := String.ext hdecomp
      rw [hs.1, hlab, labelTarget_range hdig1]
  · intro st m k hm hk hdm hdk
    have := renderScan_single_range st hm hk hdm hdk
    rw [renderContentWithReferences,
      show (⟨'[' :: (m ++ '-' :: (k ++ [']']))⟩ : String).data
        = '[' :: (m ++ '-' :: (k ++ [']'])) from rfl, this]

/-- Witness for C9 (amended): the single range marker `[4-6]` emits one
anchor labelled `4-6` targeting `#reference-4`. -/
theorem C9_range_anchor_witness :
    ((['4'] : List Char) ≠ [] ∧ (['6'] : List Char) ≠ []) ∧
    (renderContentWithReferences initialRefState
        ⟨'[' :: (['4'] ++ '-' :: (['6'] ++ [']']))⟩).2 =
      [RNode.anchor
        (mkRefId (natOfDigits ['4']) (initialRefState.occurrences (natOfDigits ['4'])))
        ("#reference-" ++ toString (natOfDigits ['4'])) ⟨['4'] ++ '-' :: ['6']⟩] :=
  ⟨⟨by decide, by decide⟩,
    C9_range_anchor.2 initialRefState ['4'] ['6'] (by decide) (by decide)
      (by decide) (by decide)⟩

end CryptoCanon
